import Mathlib

/-!
Verification of the TOTP-export-to-QR batch tool (`src/main.rs`).

The program reads a JSON export of TOTP credential entries, validates each
entry (`build_totp`), renders the corresponding `otpauth://` URI as a QR PNG,
and writes one file per entry.  Pure logic from the source is embedded
directly; behaviour that lives in library dependencies (the Base32 codec used
by `Secret::Encoded::to_bytes`, the URI encoder behind `get_qr_png`) is
modelled from the specification, as marked on each definition.
-/

/-- JSON entry record, from `struct TotpEntry` in `src/main.rs`. -/
structure TotpEntry where
  username : String
  label_name : String
  secret : String
  algorithm : String
  digits : Nat
  period_time : Nat
  deriving DecidableEq, Repr

/-- JSON root object, from `struct TotpExport` in `src/main.rs`. -/
structure TotpExport where
  export_time : String
  total_entries : Nat
  entries : List TotpEntry
  deriving DecidableEq, Repr

/-- Hash algorithm enum, from `totp_rs::Algorithm` as used by `build_totp`. -/
inductive Algorithm where
  | SHA1
  | SHA256
  | SHA512
  deriving DecidableEq, Repr

/-- The TOTP descriptor produced by `TOTP::new_unchecked` in `build_totp`:
algorithm, digits, skew, step, secret bytes, optional issuer, account name. -/
structure TOTP where
  algorithm : Algorithm
  digits : Nat
  skew : Nat
  step : Nat
  secret : List Nat
  issuer : Option String
  account_name : String
  deriving DecidableEq, Repr

/-- Error taxonomy of `build_totp` (the four `anyhow!` validation failures). -/
inductive BuildError where
  | unsupportedAlgorithm (name : String)
  | invalidDigits (value : Nat)
  | invalidPeriod
  | invalidSecretEncoding (raw : String)
  deriving DecidableEq, Repr

deriving instance DecidableEq for Except

/-- One character of Rust's `str::to_uppercase` (Unicode full case mapping),
as `build_totp` observes it.  `build_totp` uses the uppercased string only
through equality with the ASCII names `"SHA1"`, `"SHA256"`, `"SHA512"`, whose
alphabet is `S`,`H`,`A`,`1`,`2`,`5`,`6`.  In Unicode, the characters whose
full uppercase is a single character of that alphabet are the ASCII `s`,`h`,`a`
(and `S`,`H`,`A`), the digits themselves, and `ſ` (U+017F, long s, which
uppercases to `S`); and no multi-character uppercase expansion (`ß` → `SS`,
`ﬆ` → `ST`, `ﬁ` → `FI`, …) equals a contiguous block of these names (`SH`,
`HA`, `A1`, `A2`, `25`, `56`, `A5`, `51`, `12`, …).  So mapping the ASCII
letters and `ſ`, and leaving every other character unchanged, produces a
string equal to one of the three names exactly when Rust's result is — and
equal to Rust's result in that case.  Outside the match the error carries
the original string, so `build_totp`'s behaviour is reproduced on every
input. -/
def char_to_uppercase (c : Char) : Char :=
  if c = 'ſ' then 'S' else c.toUpper

/-- Rust's `str::to_uppercase` as applied in `build_totp`: the per-character
map above, concatenated (see `char_to_uppercase` for why this reproduces the
Unicode mapping through the algorithm-name comparison). -/
def to_uppercase (s : String) : String :=
  String.mk (s.data.map char_to_uppercase)

/-! ## Base32 codec

Modelled from the spec: the Base32 decode/encode used through
`totp_rs::Secret::Encoded::to_bytes` and `get_secret_base32` lives in a
library crate, not under `src/`.  Per the spec it is RFC 4648 Base32,
case-insensitive, accepted with or without trailing `=` padding, and
re-encoding is unpadded upper-case. -/

/-- Modelled from the spec: RFC 4648 Base32 value of one character,
case-insensitive (`A`-`Z`/`a`-`z` are 0..25, `2`-`7` are 26..31). -/
def b32Val (c : Char) : Option Nat :=
  if 'A' ≤ c ∧ c ≤ 'Z' then some (c.toNat - 'A'.toNat)
  else if 'a' ≤ c ∧ c ≤ 'z' then some (c.toNat - 'a'.toNat)
  else if '2' ≤ c ∧ c ≤ '7' then some (c.toNat - '2'.toNat + 26)
  else none

/-- Modelled from the spec: RFC 4648 Base32 character of a 5-bit value. -/
def b32Char (v : Nat) : Char :=
  if v < 26 then Char.ofNat ('A'.toNat + v) else Char.ofNat ('2'.toNat + v - 26)

/-- The 8 bits of a byte, most significant first. -/
def byteBits (x : Nat) : List Nat :=
  [x / 128 % 2, x / 64 % 2, x / 32 % 2, x / 16 % 2,
   x / 8 % 2, x / 4 % 2, x / 2 % 2, x % 2]

/-- The 5 bits of a Base32 value, most significant first. -/
def quintBits (v : Nat) : List Nat :=
  [v / 16 % 2, v / 8 % 2, v / 4 % 2, v / 2 % 2, v % 2]

/-- Regroup a bit list into bytes, 8 bits at a time; a trailing group of
fewer than 8 bits is dropped. -/
def bitsToBytes : List Nat → List Nat
  | b0 :: b1 :: b2 :: b3 :: b4 :: b5 :: b6 :: b7 :: rest =>
      (b0 * 128 + b1 * 64 + b2 * 32 + b3 * 16 + b4 * 8 + b5 * 4 + b6 * 2 + b7)
        :: bitsToBytes rest
  | _ => []

/-- Regroup a bit list into 5-bit Base32 values; a trailing group of fewer
than 5 bits is dropped. -/
def bitsToQuints : List Nat → List Nat
  | a :: b :: c :: d :: e :: rest =>
      (a * 16 + b * 8 + c * 4 + d * 2 + e) :: bitsToQuints rest
  | _ => []

/-- Modelled from the spec: strip the trailing `=` padding characters. -/
def stripPad (cs : List Char) : List Char :=
  (cs.reverse.dropWhile (fun c => c == '=')).reverse

/-- Decode every character; any character outside the alphabet fails. -/
def decodeVals : List Char → Option (List Nat)
  | [] => some []
  | c :: cs =>
    match b32Val c, decodeVals cs with
    | some v, some vs => some (v :: vs)
    | _, _ => none

/-- Modelled from the spec: RFC 4648 Base32 decode (with or without `=`
padding, case-insensitive); the output holds `len * 5 / 8` bytes. -/
def base32Decode (s : String) : Option (List Nat) :=
  let cs := stripPad s.data
  match decodeVals cs with
  | none => none
  | some vs => some (bitsToBytes ((vs.flatMap quintBits).take (cs.length * 5 / 8 * 8)))

/-- Modelled from the spec: RFC 4648 Base32 encode, upper-case, unpadded. -/
def base32Encode (bytes : List Nat) : String :=
  let bits := bytes.flatMap byteBits
  let padded := bits ++ List.replicate ((5 - bits.length % 5) % 5) 0
  String.mk ((bitsToQuints padded).map b32Char)

/-! ## build_totp -/

/-- The `match entry.algorithm.to_uppercase().as_str()` arm of `build_totp`:
which `Algorithm` a (already upper-cased) name denotes. -/
def algOf (s : String) : Option Algorithm :=
  if s = "SHA1" then some Algorithm.SHA1
  else if s = "SHA256" then some Algorithm.SHA256
  else if s = "SHA512" then some Algorithm.SHA512
  else none

/-- `build_totp` from `src/main.rs`: resolve the algorithm (upper-cased
name), check `digits ∈ [6,8]`, check `period_time ≠ 0`, Base32-decode the
secret, and build the descriptor via `TOTP::new_unchecked` with skew 1. -/
def build_totp (e : TotpEntry) : Except BuildError TOTP :=
  match algOf (to_uppercase e.algorithm) with
  | none => Except.error (BuildError.unsupportedAlgorithm e.algorithm)
  | some algorithm =>
    if e.digits < 6 ∨ 8 < e.digits then Except.error (BuildError.invalidDigits e.digits)
    else if e.period_time = 0 then Except.error BuildError.invalidPeriod
    else
      match base32Decode e.secret with
      | none => Except.error (BuildError.invalidSecretEncoding e.secret)
      | some secret_bytes =>
        Except.ok ⟨algorithm, e.digits, 1, e.period_time, secret_bytes,
                   some e.label_name, e.username⟩

/-! ## URI encoder

Modelled from the spec: the `otpauth://` URI is produced inside
`totp_rs::TOTP::get_qr_png` (library code, not under `src/`); §4.3 of the
spec fixes its shape. -/

/-- Display name of an algorithm, upper-case, as rendered into the URI. -/
def algName : Algorithm → String
  | Algorithm.SHA1 => "SHA1"
  | Algorithm.SHA256 => "SHA256"
  | Algorithm.SHA512 => "SHA512"

/-- UTF-8 bytes of one character (standard UTF-8 bit layout). -/
def utf8Bytes (c : Char) : List Nat :=
  let n := c.toNat
  if n < 128 then [n]
  else if n < 2048 then [192 + n / 64, 128 + n % 64]
  else if n < 65536 then [224 + n / 4096, 128 + n / 64 % 64, 128 + n % 64]
  else [240 + n / 262144, 128 + n / 4096 % 64, 128 + n / 64 % 64, 128 + n % 64]

/-- Upper-case hexadecimal digit of a value below 16. -/
def hexDigitChar (n : Nat) : Char :=
  if n < 10 then Char.ofNat ('0'.toNat + n) else Char.ofNat ('A'.toNat + n - 10)

/-- Modelled from the spec: bytes kept verbatim by URI-component
percent-encoding (ASCII alphanumerics and `-` `.` `_` `~`). -/
def isUriUnreserved (n : Nat) : Bool :=
  decide ((48 ≤ n ∧ n ≤ 57) ∨ (65 ≤ n ∧ n ≤ 90) ∨ (97 ≤ n ∧ n ≤ 122) ∨
          n = 45 ∨ n = 46 ∨ n = 95 ∨ n = 126)

/-- Modelled from the spec: percent-encode a string per URI component rules
(UTF-8 bytes; unreserved bytes kept, all others rendered `%XX`). -/
def percentEncode (s : String) : String :=
  String.mk (s.data.flatMap (fun c =>
    (utf8Bytes c).flatMap (fun n =>
      if isUriUnreserved n then [Char.ofNat n]
      else ['%', hexDigitChar (n / 16), hexDigitChar (n % 16)])))

/-- Modelled from the spec: §4.3 URI Encoder —
`otpauth://totp/{issuer}:{account}?secret=…&issuer=…&algorithm=…&digits=…&period=…`
with issuer/account percent-encoded and the secret re-encoded as unpadded
Base32 from the descriptor's bytes. -/
def encodeUri (d : TOTP) : String :=
  "otpauth://totp/" ++ percentEncode (d.issuer.getD "") ++ ":" ++
    percentEncode d.account_name ++ "?" ++
    "secret=" ++ base32Encode d.secret ++ "&" ++
    "issuer=" ++ percentEncode (d.issuer.getD "") ++ "&" ++
    "algorithm=" ++ algName d.algorithm ++ "&" ++
    "digits=" ++ toString d.digits ++ "&" ++
    "period=" ++ toString d.step

/-- `pat` occurs contiguously inside `s`. -/
def containsStr (s pat : String) : Prop :=
  ∃ a b, s = a ++ pat ++ b

/-! ## sanitize -/

/-- Rust's `char::is_ascii_alphanumeric`: ASCII digit or letter. -/
def is_ascii_alphanumeric (c : Char) : Bool :=
  decide ((48 ≤ c.toNat ∧ c.toNat ≤ 57) ∨ (65 ≤ c.toNat ∧ c.toNat ≤ 90) ∨
          (97 ≤ c.toNat ∧ c.toNat ≤ 122))

/-- `sanitize` from `src/main.rs`: keep only ASCII alphanumerics, `-`, `_`. -/
def sanitize (raw : String) : String :=
  String.mk (raw.data.filter (fun c => is_ascii_alphanumeric c || c == '-' || c == '_'))

/-! ## Batch driver

The loop of `main` over `export.entries`, with the file system as explicit
state (a list of written `path`-`bytes` pairs) and the two effectful
collaborators — the QR renderer (`get_qr_png`) and the file writer
(`fs::write`) — passed in as functions, so that their possible failures are
covered. -/

/-- The file-system state: files written so far, newest first. -/
abbrev FS : Type := List (String × List Nat)

/-- What aborts the batch at one entry, mirroring the three fallible steps
of the loop body in `main`. -/
inductive BatchError where
  | buildFailed (err : BuildError)
  | qrFailed (msg : String)
  | writeFailed (path : String)
  deriving DecidableEq, Repr

/-- One iteration of the loop in `main`: build the TOTP, render the QR PNG
from its URI, write `qr/{sanitize label}-{sanitize username}.png`.  Returns
the file system after the step and the error that stopped it, if any. -/
def stepEntry (render : String → Except String (List Nat))
    (writeF : FS → String → List Nat → Option FS)
    (e : TotpEntry) (fs : FS) : FS × Option BatchError :=
  match build_totp e with
  | Except.error err => (fs, some (BatchError.buildFailed err))
  | Except.ok totp =>
    match render (encodeUri totp) with
    | Except.error msg => (fs, some (BatchError.qrFailed msg))
    | Except.ok png =>
      let path := "qr/" ++ sanitize e.label_name ++ "-" ++ sanitize e.username ++ ".png"
      match writeF fs path png with
      | none => (fs, some (BatchError.writeFailed path))
      | some fs' => (fs', none)

/-- The `for` loop of `main`: process entries in order, stopping at the
first failing entry (`?` propagation). -/
def runBatch (render : String → Except String (List Nat))
    (writeF : FS → String → List Nat → Option FS) :
    List TotpEntry → FS → FS × Option BatchError
  | [], fs => (fs, none)
  | e :: rest, fs =>
    match stepEntry render writeF e fs with
    | (fs', none) => runBatch render writeF rest fs'
    | (fs', some err) => (fs', some err)

/-- `main` after the export document is parsed: report and return
successfully when the entry list is empty, otherwise run the loop. -/
def runMain (render : String → Except String (List Nat))
    (writeF : FS → String → List Nat → Option FS)
    (export_ : TotpExport) (fs : FS) : FS × Option BatchError :=
  if export_.entries.isEmpty then (fs, none)
  else runBatch render writeF export_.entries fs

/-- The character class the spec's `sanitize` sentence names: ASCII letter
(code points 65–90 and 97–122), ASCII digit (48–57), `-` or `_`. -/
def specAllowed (c : Char) : Prop :=
  (65 ≤ c.toNat ∧ c.toNat ≤ 90) ∨ (97 ≤ c.toNat ∧ c.toNat ≤ 122) ∨
    (48 ≤ c.toNat ∧ c.toNat ≤ 57) ∨ c = '-' ∨ c = '_'

instance (c : Char) : Decidable (specAllowed c) := by
  unfold specAllowed
  infer_instance

/-! ## Helper lemmas on `build_totp` -/

theorem build_totp_algOf_none {e : TotpEntry}
    (h : algOf (to_uppercase e.algorithm) = none) :
    build_totp e = Except.error (BuildError.unsupportedAlgorithm e.algorithm) := by
  unfold build_totp
  rw [h]

theorem build_totp_digits_bad {e : TotpEntry} {a : Algorithm}
    (h : algOf (to_uppercase e.algorithm) = some a)
    (hd : e.digits < 6 ∨ 8 < e.digits) :
    build_totp e = Except.error (BuildError.invalidDigits e.digits) := by
  unfold build_totp
  simp only [h]
  rw [if_pos hd]

theorem build_totp_period_bad {e : TotpEntry} {a : Algorithm}
    (h : algOf (to_uppercase e.algorithm) = some a)
    (hd : ¬(e.digits < 6 ∨ 8 < e.digits)) (hp : e.period_time = 0) :
    build_totp e = Except.error BuildError.invalidPeriod := by
  unfold build_totp
  simp only [h]
  rw [if_neg hd, if_pos hp]

theorem build_totp_secret_bad {e : TotpEntry} {a : Algorithm}
    (h : algOf (to_uppercase e.algorithm) = some a)
    (hd : ¬(e.digits < 6 ∨ 8 < e.digits)) (hp : ¬e.period_time = 0)
    (hs : base32Decode e.secret = none) :
    build_totp e = Except.error (BuildError.invalidSecretEncoding e.secret) := by
  unfold build_totp
  simp only [h]
  rw [if_neg hd, if_neg hp]
  simp only [hs]

theorem build_totp_ok {e : TotpEntry} {a : Algorithm} {bs : List Nat}
    (h : algOf (to_uppercase e.algorithm) = some a)
    (hd : ¬(e.digits < 6 ∨ 8 < e.digits)) (hp : ¬e.period_time = 0)
    (hs : base32Decode e.secret = some bs) :
    build_totp e =
      Except.ok ⟨a, e.digits, 1, e.period_time, bs, some e.label_name, e.username⟩ := by
  unfold build_totp
  simp only [h]
  rw [if_neg hd, if_neg hp]
  simp only [hs]

/-! ## Claim theorems (validation) -/

/-- C4: an entry whose algorithm, upper-cased, is none of SHA1/SHA256/SHA512
fails with `unsupportedAlgorithm` carrying the offending value; the match is
case-insensitive via upper-casing: lower- and mixed-case spellings — and the
Unicode spelling with a long s, which upper-cases into the ASCII name —
resolve to the same algorithm as their upper-case forms. -/
theorem c4_unsupported_algorithm :
    (∀ e : TotpEntry,
        to_uppercase e.algorithm ≠ "SHA1" → to_uppercase e.algorithm ≠ "SHA256" →
        to_uppercase e.algorithm ≠ "SHA512" →
        build_totp e = Except.error (BuildError.unsupportedAlgorithm e.algorithm)) ∧
      algOf (to_uppercase "sha1") = some Algorithm.SHA1 ∧
      algOf (to_uppercase "Sha256") = some Algorithm.SHA256 ∧
      algOf (to_uppercase "sHa512") = some Algorithm.SHA512 ∧
      algOf (to_uppercase "ſha1") = some Algorithm.SHA1 := by
  refine ⟨?_, by decide, by decide, by decide, by decide⟩
  intro e h1 h2 h3
  apply build_totp_algOf_none
  unfold algOf
  rw [if_neg h1, if_neg h2, if_neg h3]

/-- C4 witness at a concrete entry with algorithm `"MD5"`. -/
theorem c4_witness :
    build_totp ⟨"u", "l", "JBSWY3DP", "MD5", 6, 30⟩ =
      Except.error (BuildError.unsupportedAlgorithm "MD5") :=
  c4_unsupported_algorithm.1 _ (by decide) (by decide) (by decide)

/-- C5 counterexample: the claim quantifies over every entry with bad digits
(or zero period), but an entry whose algorithm is also unknown fails with
`unsupportedAlgorithm`, not `invalidDigits`: the checks run in order. -/
theorem c5_counterexample :
    build_totp ⟨"u", "l", "JBSWY3DP", "MD5", 4, 30⟩ =
        Except.error (BuildError.unsupportedAlgorithm "MD5") ∧
      build_totp ⟨"u", "l", "JBSWY3DP", "MD5", 4, 30⟩ ≠
        Except.error (BuildError.invalidDigits 4) := by
  constructor
  · decide
  · decide

/-- C5 (amended): for entries whose algorithm resolves, digits outside
`[6,8]` fail with `invalidDigits` carrying the value; for entries whose
algorithm resolves and digits are in range, `period_time = 0` fails with
`invalidPeriod`. -/
theorem c5_invalid_digits_period :
    (∀ e : TotpEntry, (algOf (to_uppercase e.algorithm)).isSome →
        (e.digits < 6 ∨ 8 < e.digits) →
        build_totp e = Except.error (BuildError.invalidDigits e.digits)) ∧
      (∀ e : TotpEntry, (algOf (to_uppercase e.algorithm)).isSome →
        6 ≤ e.digits → e.digits ≤ 8 → e.period_time = 0 →
        build_totp e = Except.error BuildError.invalidPeriod) := by
  constructor
  · intro e ha hd
    obtain ⟨a, h⟩ := Option.isSome_iff_exists.mp ha
    exact build_totp_digits_bad h hd
  · intro e ha h6 h8 hp
    obtain ⟨a, h⟩ := Option.isSome_iff_exists.mp ha
    exact build_totp_period_bad h (by omega) hp

/-- C5 witnesses: digits 4 and digits 9 fail with `invalidDigits`, a zero
period with in-range digits fails with `invalidPeriod`. -/
theorem c5_witness :
    build_totp ⟨"u", "l", "JBSWY3DP", "SHA1", 4, 30⟩ =
        Except.error (BuildError.invalidDigits 4) ∧
      build_totp ⟨"u", "l", "JBSWY3DP", "sha512", 9, 30⟩ =
        Except.error (BuildError.invalidDigits 9) ∧
      build_totp ⟨"u", "l", "JBSWY3DP", "SHA256", 6, 0⟩ =
        Except.error BuildError.invalidPeriod :=
  ⟨c5_invalid_digits_period.1 _ (by decide) (by decide),
   c5_invalid_digits_period.1 _ (by decide) (by decide),
   c5_invalid_digits_period.2 _ (by decide) (by decide) (by decide) rfl⟩

/-- C2 counterexample: the claim quantifies over every entry with a
malformed secret, but an entry that also has out-of-range digits fails with
`invalidDigits`, not `invalidSecretEncoding`: the secret is checked last. -/
theorem c2_counterexample :
    base32Decode "!!!" = none ∧
      build_totp ⟨"u", "l", "!!!", "SHA1", 4, 30⟩ =
        Except.error (BuildError.invalidDigits 4) ∧
      build_totp ⟨"u", "l", "!!!", "SHA1", 4, 30⟩ ≠
        Except.error (BuildError.invalidSecretEncoding "!!!") := by
  refine ⟨by decide, by decide, by decide⟩

/-- C2 (amended): for entries passing the algorithm, digits and period
checks, a secret that decodes as Base32 is decoded into the descriptor's
raw bytes, and a secret that does not fails with
`invalidSecretEncoding` carrying the raw value. -/
theorem c2_secret_validation :
    (∀ (e : TotpEntry) (bs : List Nat), (algOf (to_uppercase e.algorithm)).isSome →
        6 ≤ e.digits → e.digits ≤ 8 → e.period_time ≠ 0 →
        base32Decode e.secret = some bs →
        ∃ d, build_totp e = Except.ok d ∧ d.secret = bs) ∧
      (∀ e : TotpEntry, (algOf (to_uppercase e.algorithm)).isSome →
        6 ≤ e.digits → e.digits ≤ 8 → e.period_time ≠ 0 →
        base32Decode e.secret = none →
        build_totp e = Except.error (BuildError.invalidSecretEncoding e.secret)) := by
  constructor
  · intro e bs ha h6 h8 hp hs
    obtain ⟨a, h⟩ := Option.isSome_iff_exists.mp ha
    exact ⟨_, build_totp_ok h (by omega) hp hs, rfl⟩
  · intro e ha h6 h8 hp hs
    obtain ⟨a, h⟩ := Option.isSome_iff_exists.mp ha
    exact build_totp_secret_bad h (by omega) hp hs

/-- C2 witnesses: a valid padded lower-case secret decodes; `"!!!"` (with
all other fields valid) is rejected as `invalidSecretEncoding`. -/
theorem c2_witness :
    (∃ d, build_totp ⟨"u", "l", "jbswy3dp====", "SHA1", 6, 30⟩ = Except.ok d ∧
        d.secret = [72, 101, 108, 108, 111]) ∧
      build_totp ⟨"u", "l", "!!!", "SHA1", 6, 30⟩ =
        Except.error (BuildError.invalidSecretEncoding "!!!") :=
  ⟨c2_secret_validation.1 _ _ (by decide) (by decide) (by decide) (by decide) (by decide),
   c2_secret_validation.2 _ (by decide) (by decide) (by decide) (by decide) (by decide)⟩

/-- C3: when the algorithm, digits and period checks pass, `build_totp`
succeeds for a secret of any decoded byte length, and the decoded bytes are
carried into the descriptor unchanged. -/
theorem c3_no_min_length :
    ∀ (e : TotpEntry) (bs : List Nat) (ha : (algOf (to_uppercase e.algorithm)).isSome),
      6 ≤ e.digits → e.digits ≤ 8 → e.period_time ≠ 0 →
      base32Decode e.secret = some bs →
      build_totp e = Except.ok ⟨(algOf (to_uppercase e.algorithm)).get ha,
        e.digits, 1, e.period_time, bs, some e.label_name, e.username⟩ := by
  intro e bs ha h6 h8 hp hs
  obtain ⟨a, h⟩ := Option.isSome_iff_exists.mp ha
  rw [build_totp_ok h (by omega) hp hs]
  congr 1
  simp [h]

/-- C3 witness: a 1-byte secret (8 bits, far below the 80-bit minimum) is
accepted verbatim. -/
theorem c3_witness :
    build_totp ⟨"u", "l", "ME", "SHA1", 6, 30⟩ =
      Except.ok ⟨Algorithm.SHA1, 6, 1, 30, [97], some "l", "u"⟩ := by
  have h := c3_no_min_length ⟨"u", "l", "ME", "SHA1", 6, 30⟩ [97]
    (by decide) (by decide) (by decide) (by decide) (by decide)
  simpa using h

/-- C10: validation errors follow the check order of `build_totp`: an
unresolvable algorithm wins over any other defect; with a resolvable
algorithm, out-of-range digits win over period and secret defects; with
digits in range, a zero period wins over a malformed secret; concretely,
algorithm `"MD5"` with digits 4 reports `unsupportedAlgorithm`. -/
theorem c10_error_precedence :
    (∀ e : TotpEntry, algOf (to_uppercase e.algorithm) = none →
        build_totp e = Except.error (BuildError.unsupportedAlgorithm e.algorithm)) ∧
      (∀ e : TotpEntry, (algOf (to_uppercase e.algorithm)).isSome →
        (e.digits < 6 ∨ 8 < e.digits) →
        build_totp e = Except.error (BuildError.invalidDigits e.digits)) ∧
      (∀ e : TotpEntry, (algOf (to_uppercase e.algorithm)).isSome →
        ¬(e.digits < 6 ∨ 8 < e.digits) → e.period_time = 0 →
        build_totp e = Except.error BuildError.invalidPeriod) ∧
      build_totp ⟨"u", "l", "JBSWY3DP", "MD5", 4, 30⟩ =
        Except.error (BuildError.unsupportedAlgorithm "MD5") := by
  refine ⟨?_, ?_, ?_, by decide⟩
  · intro e h
    exact build_totp_algOf_none h
  · intro e ha hd
    obtain ⟨a, h⟩ := Option.isSome_iff_exists.mp ha
    exact build_totp_digits_bad h hd
  · intro e ha hd hp
    obtain ⟨a, h⟩ := Option.isSome_iff_exists.mp ha
    exact build_totp_period_bad h hd hp

/-- C10 witness: each precedence conjunct applied at a concrete entry that
is broken in several ways at once. -/
theorem c10_witness :
    build_totp ⟨"u", "l", "!!!", "HA1", 4, 0⟩ =
        Except.error (BuildError.unsupportedAlgorithm "HA1") ∧
      build_totp ⟨"u", "l", "!!!", "sha1", 9, 0⟩ =
        Except.error (BuildError.invalidDigits 9) ∧
      build_totp ⟨"u", "l", "!!!", "SHA256", 7, 0⟩ =
        Except.error BuildError.invalidPeriod :=
  ⟨c10_error_precedence.1 _ (by decide),
   c10_error_precedence.2.1 _ (by decide) (by decide),
   c10_error_precedence.2.2.1 _ (by decide) (by decide) rfl⟩

/-! ## Claim theorems (sanitize and batch driver) -/

/-- C7: `sanitize` keeps exactly the ASCII letters, ASCII digits, `-` and
`_` of its input, in order, and drops every other character; in particular
the spec's two examples hold. -/
theorem c7_sanitize :
    (∀ raw : String, (sanitize raw).data =
        raw.data.filter (fun c => decide (specAllowed c))) ∧
      sanitize "My App!" = "MyApp" ∧ sanitize "a/b c" = "abc" := by
  refine ⟨?_, by decide, by decide⟩
  intro raw
  show raw.data.filter _ = _
  apply List.filter_congr
  intro c _
  rw [Bool.eq_iff_iff]
  simp only [Bool.or_eq_true, decide_eq_true_iff, beq_iff_eq,
    is_ascii_alphanumeric, specAllowed]
  tauto

/-- C8: an export whose entry list is empty makes the batch run end
successfully, with the file system untouched. -/
theorem c8_empty_entries :
    ∀ (render : String → Except String (List Nat))
      (writeF : FS → String → List Nat → Option FS)
      (ex : TotpExport) (fs : FS),
      ex.entries = [] → runMain render writeF ex fs = (fs, none) := by
  intro render writeF ex fs h
  unfold runMain
  rw [h]
  rfl

/-- C8 witness at a concrete empty export document. -/
theorem c8_witness :
    runMain (fun _ => Except.ok [137]) (fun fs p b => some ((p, b) :: fs))
      ⟨"2024-01-01T00:00:00Z", 0, []⟩ [] = ([], none) :=
  c8_empty_entries _ _ _ _ rfl

/-- A failing loop step leaves the file-system state unchanged. -/
theorem stepEntry_fst_of_fail {render : String → Except String (List Nat)}
    {writeF : FS → String → List Nat → Option FS} {e : TotpEntry} {fs : FS}
    {err : BatchError} (h : (stepEntry render writeF e fs).2 = some err) :
    stepEntry render writeF e fs = (fs, some err) := by
  unfold stepEntry at h ⊢
  cases hb : build_totp e with
  | error e2 => simp only [hb] at h ⊢; simp_all
  | ok totp =>
    simp only [hb] at h ⊢
    cases hr : render (encodeUri totp) with
    | error msg => simp only [hr] at h ⊢; simp_all
    | ok png =>
      simp only [hr] at h ⊢
      cases hw : writeF fs ("qr/" ++ sanitize e.label_name ++ "-" ++
          sanitize e.username ++ ".png") png with
      | none => simp only [hw] at h ⊢; simp_all
      | some fs2 => simp only [hw] at h ⊢; simp_all

/-- Running the loop over `pre ++ post` continues into `post` from the
state reached by a fully successful `pre`. -/
theorem runBatch_append_of_ok {render : String → Except String (List Nat)}
    {writeF : FS → String → List Nat → Option FS} :
    ∀ (pre post : List TotpEntry) (fs fs' : FS),
      runBatch render writeF pre fs = (fs', none) →
      runBatch render writeF (pre ++ post) fs = runBatch render writeF post fs' := by
  intro pre
  induction pre with
  | nil =>
    intro post fs fs' h
    unfold runBatch at h
    simp only [Prod.mk.injEq] at h
    rw [List.nil_append, h.1]
  | cons p rest ih =>
    intro post fs fs' h
    rw [List.cons_append]
    cases hs : stepEntry render writeF p fs with
    | mk fs2 oerr =>
      cases oerr with
      | none =>
        simp only [runBatch, hs] at h ⊢
        exact ih post fs2 fs' h
      | some err =>
        simp only [runBatch, hs, Prod.mk.injEq] at h
        exact absurd h.2 (Option.some_ne_none err)

/-- C9: if every entry before index `i` succeeds and the entry at index `i`
fails (at validation, QR rendering, or the file write), the whole run stops
with that error: the file system still holds exactly the files written for
the earlier entries, and no entry after index `i` is processed. -/
theorem c9_abort_on_first_failure :
    ∀ (render : String → Except String (List Nat))
      (writeF : FS → String → List Nat → Option FS)
      (pre : List TotpEntry) (e : TotpEntry) (post : List TotpEntry)
      (fs fs' : FS) (err : BatchError),
      runBatch render writeF pre fs = (fs', none) →
      (stepEntry render writeF e fs').2 = some err →
      runBatch render writeF (pre ++ e :: post) fs = (fs', some err) := by
  intro render writeF pre e post fs fs' err hpre hfail
  rw [runBatch_append_of_ok pre (e :: post) fs fs' hpre]
  unfold runBatch
  rw [stepEntry_fst_of_fail hfail]

/-- C9 witness: one good entry, then an entry with a malformed secret, then
another good entry; the run stops after the first file with the secret
error, having written only the first file. -/
theorem c9_witness :
    runBatch (fun _ => Except.ok [137]) (fun fs p b => some ((p, b) :: fs))
      [⟨"a", "A", "ME", "SHA1", 6, 30⟩, ⟨"b", "B", "!!!", "SHA1", 6, 30⟩,
       ⟨"c", "C", "ME", "SHA1", 6, 30⟩] [] =
      ([("qr/A-a.png", [137])],
       some (BatchError.buildFailed (BuildError.invalidSecretEncoding "!!!"))) :=
  c9_abort_on_first_failure (fun _ => Except.ok [137])
    (fun fs p b => some ((p, b) :: fs))
    [⟨"a", "A", "ME", "SHA1", 6, 30⟩] ⟨"b", "B", "!!!", "SHA1", 6, 30⟩
    [⟨"c", "C", "ME", "SHA1", 6, 30⟩] [] [("qr/A-a.png", [137])]
    (BatchError.buildFailed (BuildError.invalidSecretEncoding "!!!"))
    (by decide) (by decide)

/-! ## Base32 round-trip lemmas -/

theorem byteBits_lt_two {x y : Nat} (h : y ∈ byteBits x) : y < 2 := by
  simp only [byteBits, List.mem_cons, List.not_mem_nil, or_false] at h
  rcases h with h | h | h | h | h | h | h | h <;> omega

theorem quintBits_lt_two {v y : Nat} (h : y ∈ quintBits v) : y < 2 := by
  simp only [quintBits, List.mem_cons, List.not_mem_nil, or_false] at h
  rcases h with h | h | h | h | h <;> omega

theorem length_flatMap_byteBits : ∀ l : List Nat, (l.flatMap byteBits).length = 8 * l.length := by
  intro l
  induction l with
  | nil => rfl
  | cons x xs ih =>
    rw [List.flatMap_cons, List.length_append, ih]
    simp [byteBits]
    omega

theorem bitsToBytes_flatMap : ∀ l : List Nat, (∀ x ∈ l, x < 256) →
    bitsToBytes (l.flatMap byteBits) = l := by
  intro l
  induction l with
  | nil => intro _; rfl
  | cons x xs ih =>
    intro h
    have hx : x < 256 := h x (List.mem_cons_self x xs)
    simp only [List.flatMap_cons, byteBits, List.cons_append, List.nil_append]
    simp only [bitsToBytes]
    rw [ih (fun y hy => h y (List.mem_cons_of_mem x hy))]
    congr 1
    omega

theorem not_quintet_length {l : List Nat}
    (hne : ∀ (a b c d e : Nat) (rest : List Nat),
      l = a :: b :: c :: d :: e :: rest → False) :
    l.length < 5 := by
  rcases l with _ | ⟨x0, _ | ⟨x1, _ | ⟨x2, _ | ⟨x3, _ | ⟨x4, rest⟩⟩⟩⟩⟩
  · simp
  · simp
  · simp
  · simp
  · simp
  · exact (hne x0 x1 x2 x3 x4 rest rfl).elim

theorem bitsToQuints_nil_of_short {l : List Nat} (hl : l.length < 5) :
    bitsToQuints l = [] := by
  rcases l with _ | ⟨x0, _ | ⟨x1, _ | ⟨x2, _ | ⟨x3, _ | ⟨x4, rest⟩⟩⟩⟩⟩
  · rfl
  · rfl
  · rfl
  · rfl
  · rfl
  · simp at hl
    omega

theorem not_octet_length {l : List Nat}
    (hne : ∀ (b0 b1 b2 b3 b4 b5 b6 b7 : Nat) (rest : List Nat),
      l = b0 :: b1 :: b2 :: b3 :: b4 :: b5 :: b6 :: b7 :: rest → False) :
    l.length < 8 := by
  rcases l with _ | ⟨x0, _ | ⟨x1, _ | ⟨x2, _ | ⟨x3, _ | ⟨x4, _ | ⟨x5, _ | ⟨x6, _ | ⟨x7, rest⟩⟩⟩⟩⟩⟩⟩⟩
  · simp
  · simp
  · simp
  · simp
  · simp
  · simp
  · simp
  · simp
  · exact (hne x0 x1 x2 x3 x4 x5 x6 x7 rest rfl).elim

theorem bitsToBytes_nil_of_short {l : List Nat} (hl : l.length < 8) :
    bitsToBytes l = [] := by
  rcases l with _ | ⟨x0, _ | ⟨x1, _ | ⟨x2, _ | ⟨x3, _ | ⟨x4, _ | ⟨x5, _ | ⟨x6, _ | ⟨x7, rest⟩⟩⟩⟩⟩⟩⟩⟩
  · rfl
  · rfl
  · rfl
  · rfl
  · rfl
  · rfl
  · rfl
  · rfl
  · simp at hl
    omega

theorem flatMap_bitsToQuints : ∀ l : List Nat, (∀ x ∈ l, x < 2) → l.length % 5 = 0 →
    (bitsToQuints l).flatMap quintBits = l := by
  intro l
  induction l using bitsToQuints.induct with
  | case1 a b c d e rest ih =>
    intro h hlen
    simp only [bitsToQuints, List.flatMap_cons]
    rw [ih]
    · have ha : a < 2 := h a (by simp)
      have hb : b < 2 := h b (by simp)
      have hc : c < 2 := h c (by simp)
      have hd : d < 2 := h d (by simp)
      have he : e < 2 := h e (by simp)
      simp only [quintBits, List.cons_append, List.nil_append]
      have e1 : (a * 16 + b * 8 + c * 4 + d * 2 + e) / 16 % 2 = a := by omega
      have e2 : (a * 16 + b * 8 + c * 4 + d * 2 + e) / 8 % 2 = b := by omega
      have e3 : (a * 16 + b * 8 + c * 4 + d * 2 + e) / 4 % 2 = c := by omega
      have e4 : (a * 16 + b * 8 + c * 4 + d * 2 + e) / 2 % 2 = d := by omega
      have e5 : (a * 16 + b * 8 + c * 4 + d * 2 + e) % 2 = e := by omega
      rw [e1, e2, e3, e4, e5]
    · intro x hx
      exact h x (by simp [hx])
    · simp at hlen
      omega
  | case2 l hne =>
    intro h hlen
    have hl : l.length < 5 := not_quintet_length hne
    have h0 : l.length = 0 := by omega
    rw [List.length_eq_zero] at h0
    rw [h0]
    rfl

theorem bitsToQuints_lt : ∀ l : List Nat, (∀ x ∈ l, x < 2) →
    ∀ v ∈ bitsToQuints l, v < 32 := by
  intro l
  induction l using bitsToQuints.induct with
  | case1 a b c d e rest ih =>
    intro h v hv
    simp only [bitsToQuints, List.mem_cons] at hv
    rcases hv with rfl | hv
    · have ha : a < 2 := h a (by simp)
      have hb : b < 2 := h b (by simp)
      have hc : c < 2 := h c (by simp)
      have hd : d < 2 := h d (by simp)
      have he : e < 2 := h e (by simp)
      omega
    · exact ih (fun x hx => h x (by simp [hx])) v hv
  | case2 l hne =>
    intro h v hv
    rw [bitsToQuints_nil_of_short (not_quintet_length hne)] at hv
    exact absurd hv (List.not_mem_nil v)

theorem bitsToQuints_length : ∀ l : List Nat, (bitsToQuints l).length = l.length / 5 := by
  intro l
  induction l using bitsToQuints.induct with
  | case1 a b c d e rest ih =>
    simp only [bitsToQuints, List.length_cons, ih]
    omega
  | case2 l hne =>
    rw [bitsToQuints_nil_of_short (not_quintet_length hne)]
    have := not_quintet_length hne
    simp
    omega

theorem bitsToBytes_lt : ∀ l : List Nat, (∀ x ∈ l, x < 2) →
    ∀ y ∈ bitsToBytes l, y < 256 := by
  intro l
  induction l using bitsToBytes.induct with
  | case1 b0 b1 b2 b3 b4 b5 b6 b7 rest ih =>
    intro h y hy
    simp only [bitsToBytes, List.mem_cons] at hy
    rcases hy with rfl | hy
    · have h0 : b0 < 2 := h b0 (by simp)
      have h1 : b1 < 2 := h b1 (by simp)
      have h2 : b2 < 2 := h b2 (by simp)
      have h3 : b3 < 2 := h b3 (by simp)
      have h4 : b4 < 2 := h b4 (by simp)
      have h5 : b5 < 2 := h b5 (by simp)
      have h6 : b6 < 2 := h b6 (by simp)
      have h7 : b7 < 2 := h b7 (by simp)
      omega
    · exact ih (fun x hx => h x (by simp [hx])) y hy
  | case2 l hne =>
    intro h y hy
    rw [bitsToBytes_nil_of_short (not_octet_length hne)] at hy
    exact absurd hy (List.not_mem_nil y)

theorem b32Char_fin :
    ∀ v : Fin 32, b32Val (b32Char v.val) = some v.val ∧ (b32Char v.val == '=') = false := by
  decide

theorem decodeVals_map : ∀ vs : List Nat, (∀ v ∈ vs, v < 32) →
    decodeVals (vs.map b32Char) = some vs := by
  intro vs
  induction vs with
  | nil => intro _; rfl
  | cons v tl ih =>
    intro h
    have hv : v < 32 := h v (List.mem_cons_self v tl)
    rw [List.map_cons]
    simp only [decodeVals]
    rw [(b32Char_fin ⟨v, hv⟩).1, ih (fun x hx => h x (List.mem_cons_of_mem v hx))]

theorem stripPad_of_no_pad : ∀ cs : List Char, (∀ c ∈ cs, (c == '=') = false) →
    stripPad cs = cs := by
  intro cs h
  unfold stripPad
  have hdw : cs.reverse.dropWhile (fun c => c == '=') = cs.reverse := by
    cases hr : cs.reverse with
    | nil => rfl
    | cons a t =>
      have ha : a ∈ cs := by
        have : a ∈ cs.reverse := by
          rw [hr]
          exact List.mem_cons_self a t
        simpa using this
      rw [List.dropWhile_cons, h a ha]
      simp
  rw [hdw, List.reverse_reverse]

theorem base32Decode_mk : ∀ vs : List Nat, (∀ v ∈ vs, v < 32) →
    base32Decode (String.mk (vs.map b32Char)) =
      some (bitsToBytes ((vs.flatMap quintBits).take (vs.length * 5 / 8 * 8))) := by
  intro vs h32
  have hchars : ∀ c ∈ vs.map b32Char, (c == '=') = false := by
    intro c hc
    rw [List.mem_map] at hc
    obtain ⟨v, hv, rfl⟩ := hc
    exact (b32Char_fin ⟨v, h32 v hv⟩).2
  have hstrip : stripPad (String.mk (vs.map b32Char)).data = vs.map b32Char :=
    stripPad_of_no_pad _ hchars
  simp only [base32Decode, hstrip, decodeVals_map vs h32, List.length_map]

theorem base32_decode_encode : ∀ b : List Nat, (∀ x ∈ b, x < 256) →
    base32Decode (base32Encode b) = some b := by
  intro b hb
  have hbits2 : ∀ x ∈ b.flatMap byteBits, x < 2 := by
    intro x hx
    rw [List.mem_flatMap] at hx
    obtain ⟨y, _, hyx⟩ := hx
    exact byteBits_lt_two hyx
  have hlenbits : (b.flatMap byteBits).length = 8 * b.length := length_flatMap_byteBits b
  have henc : base32Encode b =
      String.mk ((bitsToQuints (b.flatMap byteBits ++
        List.replicate ((5 - (b.flatMap byteBits).length % 5) % 5) 0)).map b32Char) := rfl
  have hpad2 : ∀ x ∈ b.flatMap byteBits ++
      List.replicate ((5 - (b.flatMap byteBits).length % 5) % 5) 0, x < 2 := by
    intro x hx
    rw [List.mem_append] at hx
    rcases hx with hx | hx
    · exact hbits2 x hx
    · rw [List.eq_of_mem_replicate hx]
      omega
  have hplen : (b.flatMap byteBits ++
      List.replicate ((5 - (b.flatMap byteBits).length % 5) % 5) 0).length =
      (b.flatMap byteBits).length + (5 - (b.flatMap byteBits).length % 5) % 5 := by
    rw [List.length_append, List.length_replicate]
  have hpmod : (b.flatMap byteBits ++
      List.replicate ((5 - (b.flatMap byteBits).length % 5) % 5) 0).length % 5 = 0 := by
    omega
  rw [henc, base32Decode_mk _ (bitsToQuints_lt _ hpad2)]
  rw [flatMap_bitsToQuints _ hpad2 hpmod, bitsToQuints_length]
  have hcount : (b.flatMap byteBits ++
      List.replicate ((5 - (b.flatMap byteBits).length % 5) % 5) 0).length / 5 * 5 / 8 * 8 =
      (b.flatMap byteBits).length := by
    omega
  rw [hcount, List.take_left, bitsToBytes_flatMap b hb]

theorem base32Decode_bytes_lt : ∀ (s : String) (b : List Nat),
    base32Decode s = some b → ∀ x ∈ b, x < 256 := by
  intro s b h x hx
  simp only [base32Decode] at h
  cases hd : decodeVals (stripPad s.data) with
  | none => rw [hd] at h; cases h
  | some vs =>
    rw [hd] at h
    simp only [Option.some.injEq] at h
    rw [← h] at hx
    refine bitsToBytes_lt _ ?_ x hx
    intro y hy
    have hy2 := List.mem_of_mem_take hy
    rw [List.mem_flatMap] at hy2
    obtain ⟨v, _, hvy⟩ := hy2
    exact quintBits_lt_two hvy

/-- C6: any secret string that decodes as Base32 yields bytes that survive
the decode, re-encode, decode round trip unchanged (even though the
re-encoded text may differ from the input in padding or case). -/
theorem c6_roundtrip :
    ∀ (s : String) (b : List Nat), base32Decode s = some b →
      base32Decode (base32Encode b) = some b := by
  intro s b h
  exact base32_decode_encode b (base32Decode_bytes_lt s b h)

/-- C6 witness: the lower-case padded spelling of the bytes of `"Hello"`
decodes, and its canonical re-encoding decodes to the same bytes. -/
theorem c6_witness :
    base32Decode "jbswy3dp====" = some [72, 101, 108, 108, 111] ∧
      base32Decode (base32Encode [72, 101, 108, 108, 111]) =
        some [72, 101, 108, 108, 111] :=
  ⟨by decide, c6_roundtrip "jbswy3dp====" [72, 101, 108, 108, 111] (by decide)⟩

/-! ## URI field lemmas -/

theorem encodeUri_contains (d : TOTP) :
    containsStr (encodeUri d) ("algorithm=" ++ algName d.algorithm) ∧
      containsStr (encodeUri d) ("digits=" ++ toString d.digits) ∧
      containsStr (encodeUri d) ("period=" ++ toString d.step) := by
  refine ⟨⟨"otpauth://totp/" ++ percentEncode (d.issuer.getD "") ++ ":" ++
      percentEncode d.account_name ++ "?" ++ "secret=" ++ base32Encode d.secret ++ "&" ++
      "issuer=" ++ percentEncode (d.issuer.getD "") ++ "&",
      "&" ++ "digits=" ++ toString d.digits ++ "&" ++ "period=" ++ toString d.step, ?_⟩,
    ⟨"otpauth://totp/" ++ percentEncode (d.issuer.getD "") ++ ":" ++
      percentEncode d.account_name ++ "?" ++ "secret=" ++ base32Encode d.secret ++ "&" ++
      "issuer=" ++ percentEncode (d.issuer.getD "") ++ "&" ++
      "algorithm=" ++ algName d.algorithm ++ "&",
      "&" ++ "period=" ++ toString d.step, ?_⟩,
    ⟨"otpauth://totp/" ++ percentEncode (d.issuer.getD "") ++ ":" ++
      percentEncode d.account_name ++ "?" ++ "secret=" ++ base32Encode d.secret ++ "&" ++
      "issuer=" ++ percentEncode (d.issuer.getD "") ++ "&" ++
      "algorithm=" ++ algName d.algorithm ++ "&" ++
      "digits=" ++ toString d.digits ++ "&", "", ?_⟩⟩
  · simp only [encodeUri, String.append_assoc]
  · simp only [encodeUri, String.append_assoc]
  · simp only [encodeUri, String.append_assoc, String.append_empty]

/-- C1: an entry with digits in {6,7,8}, a positive period, a Base32 secret
and a (case-insensitively) known algorithm builds successfully, and the URI
encoded from the resulting descriptor carries `algorithm=` with the
upper-cased algorithm, `digits=` with the digits, and `period=` with the
period. -/
theorem c1_build_and_uri_fields :
    ∀ e : TotpEntry,
      (e.digits = 6 ∨ e.digits = 7 ∨ e.digits = 8) →
      0 < e.period_time →
      (base32Decode e.secret).isSome →
      (to_uppercase e.algorithm = "SHA1" ∨ to_uppercase e.algorithm = "SHA256" ∨
        to_uppercase e.algorithm = "SHA512") →
      ∃ d, build_totp e = Except.ok d ∧
        containsStr (encodeUri d) ("algorithm=" ++ to_uppercase e.algorithm) ∧
        containsStr (encodeUri d) ("digits=" ++ toString e.digits) ∧
        containsStr (encodeUri d) ("period=" ++ toString e.period_time) := by
  intro e hd hp hs ha
  obtain ⟨bs, hbs⟩ := Option.isSome_iff_exists.mp hs
  have hdig : ¬(e.digits < 6 ∨ 8 < e.digits) := by omega
  have hper : ¬e.period_time = 0 := by omega
  rcases ha with h | h | h
  · have halg : algOf (to_uppercase e.algorithm) = some Algorithm.SHA1 := by
      rw [h]
      decide
    rw [h]
    exact ⟨_, build_totp_ok halg hdig hper hbs, (encodeUri_contains _).1,
      (encodeUri_contains _).2.1, (encodeUri_contains _).2.2⟩
  · have halg : algOf (to_uppercase e.algorithm) = some Algorithm.SHA256 := by
      rw [h]
      decide
    rw [h]
    exact ⟨_, build_totp_ok halg hdig hper hbs, (encodeUri_contains _).1,
      (encodeUri_contains _).2.1, (encodeUri_contains _).2.2⟩
  · have halg : algOf (to_uppercase e.algorithm) = some Algorithm.SHA512 := by
      rw [h]
      decide
    rw [h]
    exact ⟨_, build_totp_ok halg hdig hper hbs, (encodeUri_contains _).1,
      (encodeUri_contains _).2.1, (encodeUri_contains _).2.2⟩

/-- C1 witness at a concrete entry with a lower-case algorithm name. -/
theorem c1_witness :
    ∃ d, build_totp ⟨"alice", "GitHub", "JBSWY3DPEHPK3PXP", "sha256", 7, 30⟩ =
        Except.ok d ∧
      containsStr (encodeUri d) ("algorithm=" ++ to_uppercase "sha256") ∧
      containsStr (encodeUri d) ("digits=" ++ toString (7 : Nat)) ∧
      containsStr (encodeUri d) ("period=" ++ toString (30 : Nat)) :=
  c1_build_and_uri_fields ⟨"alice", "GitHub", "JBSWY3DPEHPK3PXP", "sha256", 7, 30⟩
    (by decide) (by decide) (by decide) (by decide)
